import Mathlib

/-!
Verification of the Tezos authentication core of the Pantera repository.

The Rust sources (`src/auth_handler.rs`, `src/auth_middleware.rs`,
`src/auth.rs`, `src/config.rs`, `src/errors.rs`) are embedded shallowly:

* Byte strings are `List Nat` with `< 256` side conditions where the Rust
  type is `u8`; text strings are `List Char`.
* The base-58 codec (the external `bs58` crate: big-endian base-256 number
  to base-58 digits, one leading `'1'` per leading zero byte) is
  implemented concretely so that the round-trip properties can be proved.
* The remaining external crates (sha2, blake2, hmac, base64, serde_json,
  ed25519-dalek, k256, p256) are parameters of the embedding, collected in
  the `CryptoPrims` structure; theorems assume only the pointwise facts
  about them that the code relies on.
* Fallible Rust functions returning `Result<_, AppError>` become
  `Except AppError _`; `Option`-returning ones become `Option`.
-/

namespace Pantera

/-- `AppError` from `src/errors.rs` (variants used by the auth core). -/
inductive AppError where
  | ValidationError (msg : String)
  | Unauthorized
  | Internal (msg : String)
deriving DecidableEq, Repr

instance instDecEqExceptApp {ε α : Type} [DecidableEq ε] [DecidableEq α] :
    DecidableEq (Except ε α) := fun x y =>
  match x, y with
  | .ok a, .ok b =>
    if h : a = b then isTrue (by rw [h])
    else isFalse (fun hc => h (by cases hc; rfl))
  | .error a, .error b =>
    if h : a = b then isTrue (by rw [h])
    else isFalse (fun hc => h (by cases hc; rfl))
  | .ok _, .error _ => isFalse (fun hc => Except.noConfusion hc)
  | .error _, .ok _ => isFalse (fun hc => Except.noConfusion hc)

/-- `matches!(e, AppError::ValidationError(_))` as used in `tezos_login`. -/
def AppError.isValidationError : AppError → Bool
  | .ValidationError _ => true
  | _ => false

/-- Display of an `AppError`, standing in for Rust's `Display` impl
(`#[error]` attributes in `src/errors.rs`); only used inside wrapped
error messages. -/
def AppError.message : AppError → String
  | .ValidationError m => m
  | .Unauthorized => "Unauthorized"
  | .Internal m => m

/-! ## Base-58 codec (external `bs58` crate, implemented concretely)

`bs58::encode` interprets the byte string as a big-endian base-256
number, writes it in base 58 using the Bitcoin alphabet, and prepends
one `'1'` (the zero digit) per leading zero byte.  `bs58::decode`
inverts this, failing on characters outside the alphabet. -/

/-- The Bitcoin base-58 alphabet used by the `bs58` crate. -/
def b58Alphabet : List Char :=
  "123456789ABCDEFGHJKLMNPQRSTUVWXYZabcdefghijkmnopqrstuvwxyz".toList

/-- Digit value to alphabet character. -/
def b58CharOf (d : Nat) : Char := b58Alphabet.getD d ' '

/-- Alphabet character back to digit value; `none` on foreign characters. -/
def b58DigitOf (c : Char) : Option Nat := b58Alphabet.findIdx? (fun a => a = c)

/-- Big-endian digit list to number (Horner evaluation, as the crates do). -/
def ofDigitsBE (base : Nat) (l : List Nat) : Nat :=
  l.foldl (fun acc d => acc * base + d) 0

/-- Fuel-driven little-endian digit expansion (structural recursion so the
kernel can evaluate it). -/
def toDigitsAux (base : Nat) : Nat → Nat → List Nat
  | 0, _ => []
  | _ + 1, 0 => []
  | fuel + 1, n + 1 => ((n + 1) % base) :: toDigitsAux base fuel ((n + 1) / base)

/-- Little-endian digits of `n` in the given base (`n` itself is enough fuel). -/
def toDigitsLE (base n : Nat) : List Nat := toDigitsAux base n n

/-- Number of leading zero entries of a list of byte/digit values. -/
def leadingZeroCount (l : List Nat) : Nat := (l.takeWhile (fun b => b == 0)).length

/-- `bs58::encode(bytes).into_string()`, as a character list. -/
def b58encodeRaw (bytes : List Nat) : List Char :=
  List.replicate (leadingZeroCount bytes) '1' ++
    (toDigitsLE 58 (ofDigitsBE 256 bytes)).reverse.map b58CharOf

/-- Character-by-character digit parsing used by `bs58::decode`. -/
def b58ToDigits : List Char → Option (List Nat)
  | [] => some []
  | c :: cs =>
    match b58DigitOf c, b58ToDigits cs with
    | some d, some ds => some (d :: ds)
    | _, _ => none

/-- `bs58::decode(s).into_vec()`: `none` on foreign characters, otherwise
one zero byte per leading zero digit followed by the big-endian base-256
expansion of the represented number. -/
def b58decodeRaw (s : List Char) : Option (List Nat) :=
  match b58ToDigits s with
  | none => none
  | some ds =>
    some (List.replicate (leadingZeroCount ds) 0 ++
      (toDigitsLE 256 (ofDigitsBE 58 ds)).reverse)

/-! ## Tezos constants (`tezos_consts` module of `src/auth_handler.rs`) -/

def ED25519_PUBLIC_KEY_PREFIX : List Nat := [13, 15, 37, 217]

def SECP256K1_PUBLIC_KEY_PREFIX : List Nat := [3, 254, 226, 86]

def P256_PUBLIC_KEY_PREFIX : List Nat := [3, 178, 139, 127]

def ED25519_SIGNATURE_PREFIX : List Nat := [9, 245, 205, 134, 18]

def SECP256K1_SIGNATURE_PREFIX : List Nat := [13, 115, 101, 19, 63]

def P256_SIGNATURE_PREFIX : List Nat := [54, 240, 44, 52]

def ED25519_PK_RAW_LEN : Nat := 32

def SECP256K1_PK_COMPRESSED_RAW_LEN : Nat := 33

def P256_PK_COMPRESSED_RAW_LEN : Nat := 33

def ED25519_SIG_RAW_LEN : Nat := 64

def SECP256K1_SIG_RAW_LEN : Nat := 64

def P256_SIG_RAW_LEN : Nat := 64

def TZ1_ADDRESS_PREFIX : List Nat := [6, 161, 159]

def TZ2_ADDRESS_PREFIX : List Nat := [6, 161, 161]

def TZ3_ADDRESS_PREFIX : List Nat := [6, 161, 164]

def MICHELINE_PACKED_PREFIX : Nat := 0x05

def MICHELINE_STRING_TAG : Nat := 0x01

/-! ## Checksum codec (` b58_encode_with_prefix` / `b58_decode_with_prefix_check`)

The double-SHA256 of the external `sha2` crate is a parameter `shaF`;
the code only relies on it being a fixed function with ≥ 4 output bytes. -/

/-- First 4 bytes of the double hash, shared by encoder and decoder. -/
def b58Checksum (shaF : List Nat → List Nat) (data : List Nat) : List Nat :=
  (shaF (shaF data)).take 4

/-- ` b58_encode_with_prefix` from `src/auth_handler.rs`: prefix ‖ payload,
append the 4-byte double-hash checksum, base-58 encode. -/
def b58_encode_with_prefix (shaF : List Nat → List Nat)
    (payload pfx : List Nat) : List Char :=
  b58encodeRaw (pfx ++ payload ++ b58Checksum shaF (pfx ++ payload))

/-- `b58_decode_with_prefix_check` from `src/auth_handler.rs`. -/
def b58_decode_with_prefix_check (shaF : List Nat → List Nat)
    (encoded : List Char) (expectedPfx : List Nat) : Except AppError (List Nat) :=
  match b58decodeRaw encoded with
  | none => .error (AppError.ValidationError ("Base58 decode error"))
  | some dec =>
    if dec.length < expectedPfx.length + 4 then
      .error (AppError.ValidationError ("Invalid Base58Check data: too short"))
    else
      let plen := expectedPfx.length
      let ppl := dec.length - 4
      if dec.take plen ≠ expectedPfx then
        .error (AppError.ValidationError ("Base58Check prefix mismatch"))
      else
        if b58Checksum shaF (dec.take ppl) ≠ dec.drop ppl then
          .error (AppError.ValidationError ("Base58Check checksum mismatch"))
        else
          .ok ((dec.drop plen).take (ppl - plen))

/-- Well-formedness of the hash parameter: byte-valued output of at least
4 bytes (SHA-256 outputs 32 bytes below 256 each). -/
def ShaOk (shaF : List Nat → List Nat) : Prop :=
  ∀ l : List Nat, (∀ b ∈ shaF l, b < 256) ∧ 4 ≤ (shaF l).length

/-! ## Session and capability data model (`src/auth.rs`, `src/config.rs`) -/

/-- `TezosAdminSession` from `src/auth.rs`. -/
structure TezosAdminSession where
  address : List Char
deriving DecidableEq

/-- `AdminAuth` from `src/auth.rs`. -/
structure AdminAuth where
  is_dev_admin : Bool
  tezos_admin_address : Option (List Char)
deriving DecidableEq

/-- `AdminAuth::public()`. -/
def AdminAuth.public : AdminAuth :=
  { is_dev_admin := false, tezos_admin_address := none }

/-- `AdminAuth::is_admin()`. -/
def AdminAuth.is_admin (a : AdminAuth) : Bool :=
  a.is_dev_admin || a.tezos_admin_address.isSome

/-- The auth-relevant fields of `Config` (`src/config.rs`). -/
structure AuthConfig where
  enable_tezos_auth : Bool
  admin_tezos_addresses : List (List Char)
  dev_mode : Bool
  cookie_hmac_key : List Nat

/-- The cookie jar of the current request/response pair, as name/value pairs. -/
abbrev CookieJar := List (List Char × List Char)

def sessionCookieName : List Char := "tezos_admin_session".toList

/-- `jar.get(name)` returning the cookie's value. -/
def jarGet (jar : CookieJar) (name : List Char) : Option (List Char) :=
  (jar.find? (fun c => c.1 == name)).map (fun c => c.2)

/-- `jar.add(cookie)`. -/
def jarAdd (jar : CookieJar) (name value : List Char) : CookieJar :=
  jar ++ [(name, value)]

/-! ## External crypto/serialization primitives

These stand for the external crates the auth core calls into:
`sha2`, `blake2`, `hmac`, `base64`, `serde_json`, `ed25519-dalek`,
`k256`, `p256`.  Curve objects are represented by their byte encodings
(the code itself stores `GenericArray`/`EncodedPoint` bytes), and each
fallible library constructor appears as a `Bool`-valued acceptance
predicate on those bytes. -/
structure CryptoPrims where
  /-- `sha2::Sha256` digest. -/
  sha256 : List Nat → List Nat
  /-- `Blake2b` with 20-byte output (`typenum::U20`). -/
  blake2b20 : List Nat → List Nat
  /-- `Blake2b` with 32-byte output (`typenum::U32`). -/
  blake2b32 : List Nat → List Nat
  /-- `Ed25519VerifyingKey::from_bytes(..).is_ok()`. -/
  edVKOk : List Nat → Bool
  /-- Ed25519 `verify(message, signature).is_ok()` (key bytes, message, signature). -/
  edVerify : List Nat → List Nat → List Nat → Bool
  /-- `k256::EncodedPoint::from_bytes(..).is_ok()`. -/
  secpPointOk : List Nat → Bool
  /-- `Secp256k1VerifyingKey::from_encoded_point(..).is_ok()`. -/
  secpVKOk : List Nat → Bool
  /-- `Secp256k1Signature::from_slice(..).is_ok()`. -/
  secpSigOk : List Nat → Bool
  /-- Secp256k1 `verify(message, signature).is_ok()` (point bytes, message, signature). -/
  secpVerify : List Nat → List Nat → List Nat → Bool
  /-- `p256::EncodedPoint::from_bytes(..).is_ok()`. -/
  p256PointOk : List Nat → Bool
  /-- `P256VerifyingKey::from_encoded_point(..).is_ok()`. -/
  p256VKOk : List Nat → Bool
  /-- `P256Signature::from_slice(..).is_ok()`. -/
  p256SigOk : List Nat → Bool
  /-- P-256 `verify(message, signature).is_ok()` (point bytes, message, signature). -/
  p256Verify : List Nat → List Nat → List Nat → Bool
  /-- `str::as_bytes()`: UTF-8 bytes of a string. -/
  utf8Enc : List Char → List Nat
  /-- `String::from_utf8(..).ok()`. -/
  utf8Dec : List Nat → Option (List Char)
  /-- `base64::STANDARD.encode` on bytes. -/
  b64encBytes : List Nat → List Char
  /-- `base64::STANDARD.decode(..).ok()`. -/
  b64decBytes : List Char → Option (List Nat)
  /-- `HmacSha256::new_from_slice(key)` + `update(data)` + `finalize()`. -/
  hmacSha256 : List Nat → List Nat → List Nat
  /-- `serde_json::to_string` of a `TezosAdminSession` (total for this type). -/
  jsonOfSession : TezosAdminSession → List Char
  /-- `serde_json::from_str::<TezosAdminSession>(..).ok()`. -/
  jsonToSession : List Char → Option TezosAdminSession

/-! ## Session token signer/verifier (`sign_session_cookie` /
`verify_session_cookie` in `src/auth_handler.rs`) -/

/-- `cookie_value.rfind('.')`: index of the last dot. -/
def rfindDot (l : List Char) : Option Nat :=
  match l.reverse.findIdx? (fun c => c = '.') with
  | none => none
  | some j => some (l.length - 1 - j)

/-- `sign_session_cookie`: `base64(json)` ++ `"."` ++ `base64(hmac(key, base64(json)))`. -/
def sign_session_cookie (P : CryptoPrims) (sessionJson : List Char)
    (hmacKey : List Nat) : List Char :=
  let encodedData := P.b64encBytes (P.utf8Enc sessionJson)
  let signatureBytes := P.hmacSha256 hmacKey (P.utf8Enc encodedData)
  let encodedSig := P.b64encBytes signatureBytes
  encodedData ++ '.' :: encodedSig

/-- `verify_session_cookie`: split on the last `'.'`, check the HMAC, decode
the data half; with the documented legacy fallback (no dot: treat the whole
value as unsigned base64 JSON). -/
def verify_session_cookie (P : CryptoPrims) (cookieValue : List Char)
    (hmacKey : List Nat) : Option TezosAdminSession :=
  match rfindDot cookieValue with
  | some dotPos =>
    let encodedData := cookieValue.take dotPos
    let encodedSig := cookieValue.drop (dotPos + 1)
    match P.b64decBytes encodedSig with
    | none => none
    | some expectedSigBytes =>
      if P.hmacSha256 hmacKey (P.utf8Enc encodedData) = expectedSigBytes then
        match P.b64decBytes encodedData with
        | none => none
        | some sessionBytes =>
          match P.utf8Dec sessionBytes with
          | none => none
          | some sessionStr => P.jsonToSession sessionStr
      else none
  | none =>
    match P.b64decBytes cookieValue with
    | none => none
    | some sessionBytes =>
      match P.utf8Dec sessionBytes with
      | none => none
      | some sessionStr =>
        match P.jsonToSession sessionStr with
        | some session => some session
        | none => none

/-- The unsigned legacy decoding chain (spec 4.4's "legacy compatibility
path"), for stating what the no-dot branch computes. -/
def legacyDecode (P : CryptoPrims) (cookieValue : List Char) :
    Option TezosAdminSession :=
  match P.b64decBytes cookieValue with
  | none => none
  | some sessionBytes =>
    match P.utf8Dec sessionBytes with
    | none => none
    | some sessionStr => P.jsonToSession sessionStr

/-! ## Public-key model (`TezosCryptoPublicKey` in `src/auth_handler.rs`) -/

inductive TezosCryptoPublicKey where
  | Ed25519 (pkBytes : List Nat)
  | Secp256k1 (point : List Nat)
  | P256 (point : List Nat)
deriving DecidableEq

/-- `TezosCryptoPublicKey::from_base58check`. -/
def TezosCryptoPublicKey.from_base58check (P : CryptoPrims) (keyStr : List Char) :
    Except AppError TezosCryptoPublicKey :=
  if List.isPrefixOf ("edpk".toList) keyStr then
    match b58_decode_with_prefix_check P.sha256 keyStr ED25519_PUBLIC_KEY_PREFIX with
    | .error e => .error e
    | .ok rawPk =>
      if rawPk.length ≠ ED25519_PK_RAW_LEN then
        .error (AppError.ValidationError ("Invalid Ed25519 public key length"))
      else .ok (.Ed25519 rawPk)
  else if List.isPrefixOf ("sppk".toList) keyStr then
    match b58_decode_with_prefix_check P.sha256 keyStr SECP256K1_PUBLIC_KEY_PREFIX with
    | .error e => .error e
    | .ok rawPk =>
      if rawPk.length ≠ SECP256K1_PK_COMPRESSED_RAW_LEN then
        .error (AppError.ValidationError ("Invalid Secp256k1 public key length"))
      else if P.secpPointOk rawPk then .ok (.Secp256k1 rawPk)
      else .error (AppError.ValidationError ("Secp256k1 PK decode error"))
  else if List.isPrefixOf ("p2pk".toList) keyStr then
    match b58_decode_with_prefix_check P.sha256 keyStr P256_PUBLIC_KEY_PREFIX with
    | .error e => .error e
    | .ok rawPk =>
      if rawPk.length ≠ P256_PK_COMPRESSED_RAW_LEN then
        .error (AppError.ValidationError ("Invalid P256 public key length"))
      else if P.p256PointOk rawPk then .ok (.P256 rawPk)
      else .error (AppError.ValidationError ("P256 PK decode error"))
  else
    .error (AppError.ValidationError ("Unsupported public key prefix"))

/-- `TezosCryptoPublicKey::verify_signature`. -/
def TezosCryptoPublicKey.verify_signature (P : CryptoPrims)
    (k : TezosCryptoPublicKey) (signatureB58 : List Char)
    (messageHash : List Nat) : Except AppError Bool :=
  match k with
  | .Ed25519 pkBytes =>
    match b58_decode_with_prefix_check P.sha256 signatureB58 ED25519_SIGNATURE_PREFIX with
    | .error e => .error e
    | .ok sigBytes =>
      if sigBytes.length ≠ ED25519_SIG_RAW_LEN then
        .error (AppError.ValidationError ("Invalid Ed25519 signature length"))
      else if P.edVKOk pkBytes then .ok (P.edVerify pkBytes messageHash sigBytes)
      else .error (AppError.Internal ("Ed25519 VK build error"))
  | .Secp256k1 point =>
    match b58_decode_with_prefix_check P.sha256 signatureB58 SECP256K1_SIGNATURE_PREFIX with
    | .error e => .error e
    | .ok sigBytes =>
      if sigBytes.length ≠ SECP256K1_SIG_RAW_LEN then
        .error (AppError.ValidationError ("Invalid Secp256k1 signature length"))
      else if ¬ P.secpSigOk sigBytes then
        .error (AppError.ValidationError ("Secp256k1 sig decode error"))
      else if P.secpVKOk point then .ok (P.secpVerify point messageHash sigBytes)
      else .error (AppError.Internal ("Secp256k1 VK build error"))
  | .P256 point =>
    match b58_decode_with_prefix_check P.sha256 signatureB58 P256_SIGNATURE_PREFIX with
    | .error e => .error e
    | .ok sigBytes =>
      if sigBytes.length ≠ P256_SIG_RAW_LEN then
        .error (AppError.ValidationError ("Invalid P256 signature length"))
      else if ¬ P.p256SigOk sigBytes then
        .error (AppError.ValidationError ("P256 sig decode error"))
      else if P.p256VKOk point then .ok (P.p256Verify point messageHash sigBytes)
      else .error (AppError.Internal ("P256 VK build error"))

/-- `TezosCryptoPublicKey::public_key_hash_b58check`: 20-byte Blake2b of the
raw key bytes, checksum-encoded with the curve's address prefix. -/
def TezosCryptoPublicKey.public_key_hash_b58check (P : CryptoPrims)
    (k : TezosCryptoPublicKey) : Except AppError (List Char) :=
  let rawPkBytesForHash :=
    match k with
    | .Ed25519 pkBytes => pkBytes
    | .Secp256k1 point => point
    | .P256 point => point
  let pkhRaw := P.blake2b20 rawPkBytesForHash
  let addressPfx :=
    match k with
    | .Ed25519 _ => TZ1_ADDRESS_PREFIX
    | .Secp256k1 _ => TZ2_ADDRESS_PREFIX
    | .P256 _ => TZ3_ADDRESS_PREFIX
  .ok ( b58_encode_with_prefix P.sha256 pkhRaw addressPfx)

/-! ## Binary message packer (`pack_micheline_string`) -/

/-- `u32::to_be_bytes`. -/
def u32be (n : Nat) : List Nat :=
  [n / 2 ^ 24 % 256, n / 2 ^ 16 % 256, n / 2 ^ 8 % 256, n % 256]

/-- `pack_micheline_string`: `0x05 ‖ 0x01 ‖ big_endian_u32(len) ‖ bytes`.
`len as u32` in the source silently wraps, hence the `% 2 ^ 32`. -/
def pack_micheline_string (P : CryptoPrims) (data : List Char) :
    Except AppError (List Nat) :=
  let sBytes := P.utf8Enc data
  let sLen := sBytes.length % 2 ^ 32
  .ok (MICHELINE_PACKED_PREFIX :: MICHELINE_STRING_TAG :: (u32be sLen ++ sBytes))

/-! ## Authentication orchestrator (`tezos_login`) and capability
extraction (`extract_admin_auth` in `src/auth_middleware.rs`) -/

/-- `TezosLoginPayload`. -/
structure TezosLoginPayload where
  pkh : List Char
  public_key : List Char
  signature : List Char
  challenge : List Char

/-- `tezos_login`: the full verification chain.  On success the session
cookie is added to the jar; every failure returns the error with the jar
untouched (the `Except` error carries no jar). -/
def tezos_login (P : CryptoPrims) (cfg : AuthConfig) (jar : CookieJar)
    (payload : TezosLoginPayload) : Except AppError (CookieJar × String) :=
  match TezosCryptoPublicKey.from_base58check P payload.public_key with
  | .error e =>
    .error (AppError.ValidationError ("Invalid public key format or value: " ++ e.message))
  | .ok publicKey =>
    match TezosCryptoPublicKey.public_key_hash_b58check P publicKey with
    | .error e => .error e
    | .ok derivedPkh =>
      if derivedPkh ≠ payload.pkh then
        .error (AppError.ValidationError
          ("Public key hash does not match the provided public key."))
      else
        match pack_micheline_string P payload.challenge with
        | .error e => .error e
        | .ok packedChallengeBytes =>
          let messageHashToVerify := P.blake2b32 packedChallengeBytes
          match TezosCryptoPublicKey.verify_signature P publicKey payload.signature
              messageHashToVerify with
          | .ok true =>
            if ¬ cfg.admin_tezos_addresses.contains payload.pkh then
              .error AppError.Unauthorized
            else
              let sessionJson := P.jsonOfSession { address := payload.pkh }
              let signedCookieValue :=
                sign_session_cookie P sessionJson cfg.cookie_hmac_key
              .ok (jarAdd jar sessionCookieName signedCookieValue, "Login successful")
          | .ok false => .error AppError.Unauthorized
          | .error e =>
            if e.isValidationError then .error e
            else .error (AppError.Internal ("Signature verification processing error"))

/-- `extract_admin_auth` from `src/auth_middleware.rs`. -/
def extract_admin_auth (P : CryptoPrims) (cfg : AuthConfig) (jar : CookieJar) :
    AdminAuth :=
  if ¬ cfg.enable_tezos_auth then AdminAuth.public
  else
    match jarGet jar sessionCookieName with
    | some cookieValue =>
      match verify_session_cookie P cookieValue cfg.cookie_hmac_key with
      | some session =>
        if cfg.admin_tezos_addresses.contains session.address then
          { is_dev_admin := false, tezos_admin_address := some session.address }
        else if cfg.dev_mode then
          { is_dev_admin := true, tezos_admin_address := none }
        else AdminAuth.public
      | none =>
        if cfg.dev_mode then
          { is_dev_admin := true, tezos_admin_address := none }
        else AdminAuth.public
    | none =>
      if cfg.dev_mode then
        { is_dev_admin := true, tezos_admin_address := none }
      else AdminAuth.public

/-! ## Prefix tables (one entry per supported curve, in the order
Ed25519, Secp256k1, P256) -/

def pkPrefixTable (i : Fin 3) : List Nat :=
  [ED25519_PUBLIC_KEY_PREFIX, SECP256K1_PUBLIC_KEY_PREFIX, P256_PUBLIC_KEY_PREFIX].get i

def sigPrefixTable (i : Fin 3) : List Nat :=
  [ED25519_SIGNATURE_PREFIX, SECP256K1_SIGNATURE_PREFIX, P256_SIGNATURE_PREFIX].get i

def addrPrefixTable (i : Fin 3) : List Nat :=
  [TZ1_ADDRESS_PREFIX, TZ2_ADDRESS_PREFIX, TZ3_ADDRESS_PREFIX].get i

/-! ## A concrete instantiation of the external primitives

Used to evaluate the embedding on explicit inputs (witnesses and
counterexamples).  The hash/MAC/encoding functions are simple concrete
stand-ins; nothing in the code's control flow depends on their values
beyond the facts assumed in the theorems. -/

def shaDummy : List Nat → List Nat := fun _ => List.replicate 32 7

def P0 : CryptoPrims where
  sha256 := shaDummy
  blake2b20 := fun _ => List.replicate 20 1
  blake2b32 := fun _ => List.replicate 32 2
  edVKOk := fun _ => true
  edVerify := fun _ _ _ => true
  secpPointOk := fun _ => true
  secpVKOk := fun _ => true
  secpSigOk := fun _ => true
  secpVerify := fun _ _ _ => true
  p256PointOk := fun _ => true
  p256VKOk := fun _ => true
  p256SigOk := fun _ => true
  p256Verify := fun _ _ _ => true
  utf8Enc := fun s => s.map Char.toNat
  utf8Dec := fun bs => some (bs.map Char.ofNat)
  b64encBytes := fun bs => bs.map (fun b => Char.ofNat (b + 256))
  b64decBytes := fun s => some (s.map (fun c => c.toNat - 256))
  hmacSha256 := fun key data => key ++ data
  jsonOfSession := fun s => s.address
  jsonToSession := fun s => some { address := s }

/-- Like `P0` but the Ed25519 key-building library call rejects every
byte string. -/
def P1 : CryptoPrims := { P0 with edVKOk := fun _ => false }

/-- Like `P0` but Ed25519 signature verification returns `false`. -/
def P2 : CryptoPrims := { P0 with edVerify := fun _ _ _ => false }

def edpkExample : List Char :=
  b58_encode_with_prefix shaDummy (List.replicate 32 0) ED25519_PUBLIC_KEY_PREFIX

def tz1Example : List Char :=
  b58_encode_with_prefix shaDummy (List.replicate 20 1) TZ1_ADDRESS_PREFIX

def edsigExample : List Char :=
  b58_encode_with_prefix shaDummy (List.replicate 64 0) ED25519_SIGNATURE_PREFIX

def payloadExample : TezosLoginPayload :=
  { pkh := tz1Example, public_key := edpkExample,
    signature := edsigExample, challenge := ['x'] }

def keyExample : List Nat := List.replicate 32 3

def key2Example : List Nat := List.replicate 32 4

def cfgExample : AuthConfig :=
  { enable_tezos_auth := true, admin_tezos_addresses := [tz1Example],
    dev_mode := false, cookie_hmac_key := keyExample }

def sessionExample : TezosAdminSession := { address := ['a'] }

/-- The data half of a signed token: `base64(json(session))`. -/
def signedData (P : CryptoPrims) (s : TezosAdminSession) : List Char :=
  P.b64encBytes (P.utf8Enc (P.jsonOfSession s))

/-- The MAC a signed token carries: `hmac(key, base64(json(session)))`. -/
def signedMac (P : CryptoPrims) (s : TezosAdminSession) (key : List Nat) : List Nat :=
  P.hmacSha256 key (P.utf8Enc (signedData P s))

/-- A dot-free unsigned token for `sessionExample` under `P0`. -/
def legacyTokenExample : List Char := P0.b64encBytes (P0.utf8Enc ['a'])

def cfgLegacy : AuthConfig :=
  { enable_tezos_auth := true, admin_tezos_addresses := [['a']],
    dev_mode := false, cookie_hmac_key := keyExample }

def jarLegacy : CookieJar := [(sessionCookieName, legacyTokenExample)]

def cfgDisabled : AuthConfig :=
  { enable_tezos_auth := false, admin_tezos_addresses := [],
    dev_mode := false, cookie_hmac_key := keyExample }

/-! # Theorems -/

/-! ### Base-58 helper lemmas -/

theorem toDigitsAux_eq_digits (base : Nat) (hb : 2 ≤ base) :
    ∀ fuel n, n ≤ fuel → toDigitsAux base fuel n = Nat.digits base n := by
  intro fuel
  induction fuel with
  | zero =>
    intro n hn
    interval_cases n
    simp [toDigitsAux]
  | succ f ih =>
    intro n hn
    cases n with
    | zero => simp [toDigitsAux]
    | succ m =>
      rw [toDigitsAux, Nat.digits_def' (by omega : 1 < base) (Nat.succ_pos m)]
      congr 1
      apply ih
      have : (m + 1) / base < m + 1 := Nat.div_lt_self (Nat.succ_pos m) (by omega)
      omega

theorem toDigitsLE_eq_digits (base n : Nat) (hb : 2 ≤ base) :
    toDigitsLE base n = Nat.digits base n :=
  toDigitsAux_eq_digits base hb n n le_rfl

theorem ofDigitsBE_aux (base : Nat) :
    ∀ (l : List Nat) (acc : Nat),
      l.foldl (fun acc d => acc * base + d) acc =
        Nat.ofDigits base l.reverse + acc * base ^ l.length := by
  intro l
  induction l with
  | nil => intro acc; simp [Nat.ofDigits]
  | cons h t ih =>
    intro acc
    rw [List.foldl_cons, ih]
    rw [List.reverse_cons, Nat.ofDigits_append]
    simp [Nat.ofDigits_singleton]
    ring

theorem ofDigitsBE_eq (base : Nat) (l : List Nat) :
    ofDigitsBE base l = Nat.ofDigits base l.reverse := by
  rw [ofDigitsBE, ofDigitsBE_aux]
  simp

theorem b58DigitOf_b58CharOf (d : Nat) (hd : d < 58) :
    b58DigitOf (b58CharOf d) = some d := by
  interval_cases d <;> rfl

theorem b58ToDigits_cons_eq (c : Char) (cs : List Char) (d : Nat) (ds : List Nat)
    (h1 : b58DigitOf c = some d) (h2 : b58ToDigits cs = some ds) :
    b58ToDigits (c :: cs) = some (d :: ds) := by
  simp [b58ToDigits, h1, h2]

theorem b58ToDigits_map_charOf (ds : List Nat) (h : ∀ d ∈ ds, d < 58) :
    b58ToDigits (ds.map b58CharOf) = some ds := by
  induction ds with
  | nil => rfl
  | cons d t ih =>
    have hd : d < 58 := h d (List.mem_cons_self d t)
    have ht : b58ToDigits (t.map b58CharOf) = some t :=
      ih (fun x hx => h x (List.mem_cons_of_mem d hx))
    exact b58ToDigits_cons_eq _ _ _ _ (b58DigitOf_b58CharOf d hd) ht

theorem b58ToDigits_replicate_one (z : Nat) (rest : List Char) (ds : List Nat)
    (h : b58ToDigits rest = some ds) :
    b58ToDigits (List.replicate z '1' ++ rest) = some (List.replicate z 0 ++ ds) := by
  induction z with
  | zero => simpa using h
  | succ k ih =>
    rw [List.replicate_succ, List.cons_append, List.replicate_succ, List.cons_append]
    exact b58ToDigits_cons_eq _ _ _ _ rfl ih

theorem leadingZeroCount_cons_zero (l : List Nat) :
    leadingZeroCount (0 :: l) = leadingZeroCount l + 1 := by
  simp [leadingZeroCount, List.takeWhile_cons]

theorem leadingZeroCount_replicate_append (z : Nat) (l : List Nat) :
    leadingZeroCount (List.replicate z 0 ++ l) = z + leadingZeroCount l := by
  induction z with
  | zero => simp [leadingZeroCount]
  | succ k ih =>
    rw [List.replicate_succ, List.cons_append, leadingZeroCount_cons_zero, ih]
    omega

theorem leadingZeroCount_cons_ne (d : Nat) (hd : d ≠ 0) (l : List Nat) :
    leadingZeroCount (d :: l) = 0 := by
  have : (d == 0) = false := by simpa using hd
  simp [leadingZeroCount, List.takeWhile_cons, this]

theorem foldl_replicate_zero (base z : Nat) :
    (List.replicate z 0).foldl (fun acc d => acc * base + d) 0 = 0 := by
  induction z with
  | zero => rfl
  | succ k ih => simpa [List.replicate_succ] using ih

theorem ofDigitsBE_replicate_append (base z : Nat) (l : List Nat) :
    ofDigitsBE base (List.replicate z 0 ++ l) = ofDigitsBE base l := by
  rw [ofDigitsBE, List.foldl_append, foldl_replicate_zero, ofDigitsBE]

theorem ofDigits_replicate_zero (base z : Nat) :
    Nat.ofDigits base (List.replicate z 0) = 0 := by
  induction z with
  | zero => rfl
  | succ k ih => simp [List.replicate_succ, Nat.ofDigits_cons, ih]

theorem dropWhile_head_false {α : Type} {p : α → Bool} :
    ∀ {l : List α} {d : α} {rest : List α}, l.dropWhile p = d :: rest → p d = false := by
  intro l
  induction l with
  | nil => intro d rest h; simp [List.dropWhile] at h
  | cons x t ih =>
    intro d rest h
    by_cases hx : p x
    · rw [List.dropWhile_cons_of_pos hx] at h
      exact ih h
    · rw [List.dropWhile_cons_of_neg hx] at h
      cases h
      simpa using hx

/-- Round trip of the raw base-58 codec: decoding an encoded byte string
recovers it exactly (bytes are below 256). -/
theorem b58decodeRaw_b58encodeRaw (bytes : List Nat) (h : ∀ b ∈ bytes, b < 256) :
    b58decodeRaw (b58encodeRaw bytes) = some bytes := by
  classical
  set z := leadingZeroCount bytes with hz
  set n := ofDigitsBE 256 bytes with hn
  set tw := bytes.takeWhile (fun b => b == 0) with htw
  set dw := bytes.dropWhile (fun b => b == 0) with hdw
  have hsplit : tw ++ dw = bytes := by
    rw [htw, hdw]; exact List.takeWhile_append_dropWhile _ _
  have htw_rep : tw = List.replicate z 0 := by
    apply List.eq_replicate_of_mem
    intro b hb
    have := List.mem_takeWhile_imp (htw ▸ hb)
    simpa using this
  -- digits of the 58-expansion
  have hds_eq : toDigitsLE 58 n = Nat.digits 58 n := toDigitsLE_eq_digits 58 n (by norm_num)
  set ds := (Nat.digits 58 n).reverse with hds
  have hds_lt : ∀ d ∈ ds, d < 58 := by
    intro d hd
    exact Nat.digits_lt_base (by norm_num) (List.mem_reverse.mp hd)
  -- parsing the encoded characters back to digit values
  have hparse : b58ToDigits (b58encodeRaw bytes) = some (List.replicate z 0 ++ ds) := by
    rw [b58encodeRaw, ← hz, hds_eq, ← hds]
    exact b58ToDigits_replicate_one z _ ds (b58ToDigits_map_charOf ds hds_lt)
  -- leading zero count of the recovered digit list
  have hcount : leadingZeroCount (List.replicate z 0 ++ ds) = z := by
    rcases Nat.eq_zero_or_pos n with hn0 | hnpos
    · rw [hds, hn0]
      simp [leadingZeroCount_replicate_append, leadingZeroCount]
    · have hne : n ≠ 0 := Nat.pos_iff_ne_zero.mp hnpos
      have hLne : Nat.digits 58 n ≠ [] := Nat.digits_ne_nil_iff_ne_zero.mpr hne
      rcases List.eq_nil_or_concat (Nat.digits 58 n) with hnil | ⟨L, a, hLa⟩
      · exact absurd hnil hLne
      · rw [List.concat_eq_append] at hLa
        have ha : a ≠ 0 := by
          have hgl : (Nat.digits 58 n).getLast? = some a := by
            rw [hLa]; exact List.getLast?_concat _
          rw [List.getLast?_eq_getLast _ hLne, Option.some_inj] at hgl
          rw [← hgl]
          exact Nat.getLast_digit_ne_zero 58 hne
        rw [hds, hLa]
        rw [List.reverse_append, List.reverse_singleton, List.singleton_append]
        rw [leadingZeroCount_replicate_append, leadingZeroCount_cons_ne a ha]
        omega
  -- the recovered number
  have hnum : ofDigitsBE 58 (List.replicate z 0 ++ ds) = n := by
    rw [ofDigitsBE_replicate_append, ofDigitsBE_eq, hds, List.reverse_reverse,
      Nat.ofDigits_digits]
  -- the byte expansion of the recovered number
  have hdw_lt : ∀ b ∈ dw, b < 256 := by
    intro b hb
    exact h b (List.dropWhile_sublist _ |>.mem (hdw ▸ hb))
  have hn_dw : n = Nat.ofDigits 256 dw.reverse := by
    rw [hn, ofDigitsBE_eq]
    conv_lhs => rw [← hsplit]
    rw [List.reverse_append, Nat.ofDigits_append, htw_rep, List.reverse_replicate,
      ofDigits_replicate_zero]
    ring
  have hbytes_back : (toDigitsLE 256 n).reverse = dw := by
    rw [toDigitsLE_eq_digits 256 n (by norm_num), hn_dw]
    cases hdwc : dw with
    | nil =>
      simp [hdwc, Nat.ofDigits_nil]
    | cons d rest =>
      have hdrop : List.dropWhile (fun b : Nat => b == 0) bytes = d :: rest := by
        rw [← hdw]; exact hdwc
      have hd0 : d ≠ 0 := by
        have hfalse := dropWhile_head_false hdrop
        simpa using hfalse
      have w2 : ∀ hh : (d :: rest).reverse ≠ [], ((d :: rest).reverse).getLast hh ≠ 0 := by
        intro hh
        have h1 : ((d :: rest).reverse).getLast? = some d := by
          rw [List.reverse_cons]; exact List.getLast?_concat _
        rw [List.getLast?_eq_getLast _ hh, Option.some_inj] at h1
        rw [h1]; exact hd0
      rw [Nat.digits_ofDigits 256 (by norm_num) ((d :: rest).reverse)
        (by
          intro x hx
          apply hdw_lt
          rw [hdwc]
          exact List.mem_reverse.mp hx) w2]
      rw [List.reverse_reverse]
  -- assemble
  simp only [b58decodeRaw, hparse]
  rw [hcount, hnum, hbytes_back, ← htw_rep, hsplit]

theorem b58Checksum_len (shaF : List Nat → List Nat) (hs : ShaOk shaF)
    (data : List Nat) : (b58Checksum shaF data).length = 4 := by
  rw [b58Checksum, List.length_take]
  have := (hs (shaF data)).2
  omega

theorem b58Checksum_bytes (shaF : List Nat → List Nat) (hs : ShaOk shaF)
    (data : List Nat) : ∀ b ∈ b58Checksum shaF data, b < 256 := by
  intro b hb
  exact (hs (shaF data)).1 b (List.mem_of_mem_take hb)

/-- C3 core: decoding the result of encoding succeeds and returns the
original payload, for every byte payload and prefix. -/
theorem b58_decode_b58_encode (shaF : List Nat → List Nat) (hs : ShaOk shaF)
    (payload pfx : List Nat)
    (hp : ∀ b ∈ payload, b < 256) (hx : ∀ b ∈ pfx, b < 256) :
    b58_decode_with_prefix_check shaF ( b58_encode_with_prefix shaF payload pfx) pfx
      = .ok payload := by
  set ck := b58Checksum shaF (pfx ++ payload) with hck
  have hcklen : ck.length = 4 := b58Checksum_len shaF hs _
  have hraw : b58decodeRaw ( b58_encode_with_prefix shaF payload pfx)
      = some (pfx ++ payload ++ ck) := by
    rw [ b58_encode_with_prefix, ← hck]
    apply b58decodeRaw_b58encodeRaw
    intro b hb
    rcases List.mem_append.mp hb with hb | hb
    · rcases List.mem_append.mp hb with hb | hb
      · exact hx b hb
      · exact hp b hb
    · exact b58Checksum_bytes shaF hs _ b (hck ▸ hb)
  simp only [b58_decode_with_prefix_check, hraw]
  have hlen : (pfx ++ payload ++ ck).length = pfx.length + payload.length + 4 := by
    simp [hcklen]
    omega
  have hnotshort : ¬ (pfx ++ payload ++ ck).length < pfx.length + 4 := by
    rw [hlen]; omega
  rw [if_neg hnotshort]
  have happ : pfx ++ payload ++ ck = pfx ++ (payload ++ ck) := by
    rw [List.append_assoc]
  have htake : (pfx ++ payload ++ ck).take pfx.length = pfx := by
    rw [happ]; exact List.take_left pfx (payload ++ ck)
  rw [if_neg (by rw [htake]; exact fun hcon => hcon rfl)]
  have hppl : (pfx ++ payload ++ ck).length - 4 = pfx.length + payload.length := by
    rw [hlen]; omega
  have htake2 : (pfx ++ payload ++ ck).take ((pfx ++ payload ++ ck).length - 4)
      = pfx ++ payload := by
    rw [hppl]
    have : pfx.length + payload.length = (pfx ++ payload).length := by
      rw [List.length_append]
    rw [this]
    exact List.take_left (pfx ++ payload) ck
  have hdrop2 : (pfx ++ payload ++ ck).drop ((pfx ++ payload ++ ck).length - 4) = ck := by
    rw [hppl]
    have : pfx.length + payload.length = (pfx ++ payload).length := by
      rw [List.length_append]
    rw [this]
    exact List.drop_left (pfx ++ payload) ck
  rw [if_neg (by rw [htake2, hdrop2, ← hck]; exact fun hcon => hcon rfl)]
  have hdrop1 : (pfx ++ payload ++ ck).drop pfx.length = payload ++ ck := by
    rw [happ]; exact List.drop_left pfx (payload ++ ck)
  rw [hdrop1, hppl]
  have : pfx.length + payload.length - pfx.length = payload.length := by omega
  rw [this]
  rw [List.take_left payload ck]

/-! ### Branch equations of `b58_decode_with_prefix_check` -/

theorem b58_decode_eq_badB58 (shaF : List Nat → List Nat) (s : List Char)
    (pfx : List Nat) (h : b58decodeRaw s = none) :
    b58_decode_with_prefix_check shaF s pfx
      = .error (AppError.ValidationError ("Base58 decode error")) := by
  simp only [b58_decode_with_prefix_check, h]

theorem b58_decode_eq_short (shaF : List Nat → List Nat) (s : List Char)
    (pfx dec : List Nat) (h : b58decodeRaw s = some dec)
    (h2 : dec.length < pfx.length + 4) :
    b58_decode_with_prefix_check shaF s pfx
      = .error (AppError.ValidationError ("Invalid Base58Check data: too short")) := by
  simp only [b58_decode_with_prefix_check, h]
  rw [if_pos h2]

theorem b58_decode_eq_prefixMismatch (shaF : List Nat → List Nat) (s : List Char)
    (pfx dec : List Nat) (h : b58decodeRaw s = some dec)
    (h2 : ¬ dec.length < pfx.length + 4) (h3 : dec.take pfx.length ≠ pfx) :
    b58_decode_with_prefix_check shaF s pfx
      = .error (AppError.ValidationError ("Base58Check prefix mismatch")) := by
  simp only [b58_decode_with_prefix_check, h]
  rw [if_neg h2, if_pos h3]

theorem b58_decode_eq_checksumMismatch (shaF : List Nat → List Nat) (s : List Char)
    (pfx dec : List Nat) (h : b58decodeRaw s = some dec)
    (h2 : ¬ dec.length < pfx.length + 4) (h3 : dec.take pfx.length = pfx)
    (h4 : b58Checksum shaF (dec.take (dec.length - 4)) ≠ dec.drop (dec.length - 4)) :
    b58_decode_with_prefix_check shaF s pfx
      = .error (AppError.ValidationError ("Base58Check checksum mismatch")) := by
  simp only [b58_decode_with_prefix_check, h]
  rw [if_neg h2, if_neg (by rw [h3]; exact fun hcon => hcon rfl), if_pos h4]

theorem b58_decode_eq_ok (shaF : List Nat → List Nat) (s : List Char)
    (pfx dec : List Nat) (h : b58decodeRaw s = some dec)
    (h2 : ¬ dec.length < pfx.length + 4) (h3 : dec.take pfx.length = pfx)
    (h4 : b58Checksum shaF (dec.take (dec.length - 4)) = dec.drop (dec.length - 4)) :
    b58_decode_with_prefix_check shaF s pfx
      = .ok ((dec.drop pfx.length).take (dec.length - 4 - pfx.length)) := by
  simp only [b58_decode_with_prefix_check, h]
  rw [if_neg h2, if_neg (by rw [h3]; exact fun hcon => hcon rfl),
    if_neg (by rw [h4]; exact fun hcon => hcon rfl)]

/-- Raw decode of an encode-with-prefix result: prefix ‖ payload ‖ checksum. -/
theorem b58decodeRaw_encode_with_prefix (shaF : List Nat → List Nat)
    (hs : ShaOk shaF) (payload pfx : List Nat)
    (hp : ∀ b ∈ payload, b < 256) (hx : ∀ b ∈ pfx, b < 256) :
    b58decodeRaw ( b58_encode_with_prefix shaF payload pfx)
      = some (pfx ++ payload ++ b58Checksum shaF (pfx ++ payload)) := by
  rw [ b58_encode_with_prefix]
  apply b58decodeRaw_b58encodeRaw
  intro b hb
  rcases List.mem_append.mp hb with hb | hb
  · rcases List.mem_append.mp hb with hb | hb
    · exact hx b hb
    · exact hp b hb
  · exact b58Checksum_bytes shaF hs _ b hb

/-- The concrete stand-in hash satisfies the well-formedness the
theorems assume. -/
theorem shaDummyOk : ShaOk shaDummy := by
  intro l
  refine ⟨?_, ?_⟩
  · intro b hb
    simp only [shaDummy, List.mem_replicate] at hb
    omega
  · simp [shaDummy]

/-! ### C3: codec round trip -/

/-- C3: for every byte payload and every prefix,
`b58_decode_with_prefix_check ( b58_encode_with_prefix payload pfx) pfx`
succeeds and returns the original payload.  (Proved above as
`b58_decode_b58_encode`; this names the claim.) -/
theorem C3_b58_roundtrip (shaF : List Nat → List Nat) (hs : ShaOk shaF)
    (payload pfx : List Nat)
    (hp : ∀ b ∈ payload, b < 256) (hx : ∀ b ∈ pfx, b < 256) :
    b58_decode_with_prefix_check shaF ( b58_encode_with_prefix shaF payload pfx) pfx
      = .ok payload :=
  b58_decode_b58_encode shaF hs payload pfx hp hx

theorem C3_b58_roundtrip_witness :
    ShaOk shaDummy ∧
    b58_decode_with_prefix_check shaDummy
      ( b58_encode_with_prefix shaDummy [0, 255, 7] TZ1_ADDRESS_PREFIX)
      TZ1_ADDRESS_PREFIX = .ok [0, 255, 7] :=
  ⟨shaDummyOk,
    C3_b58_roundtrip shaDummy shaDummyOk
      [0, 255, 7] TZ1_ADDRESS_PREFIX (by decide) (by decide)⟩

/-! ### C4: decode error characterization -/

/-- C4: `b58_decode_with_prefix_check` fails (always with a
`ValidationError`) exactly when the string is not valid base-58, or the
decoded bytes are too short, or the leading bytes differ from the
expected prefix, or the recomputed 4-byte double-hash checksum differs
from the trailing 4 bytes; otherwise it returns the bytes strictly
between prefix and checksum. -/
theorem C4_b58_decode_cases (shaF : List Nat → List Nat)
    (s : List Char) (pfx : List Nat) :
    ((∃ msg, b58_decode_with_prefix_check shaF s pfx
        = .error (AppError.ValidationError msg))
      ↔ (b58decodeRaw s = none ∨
          ∃ dec, b58decodeRaw s = some dec ∧
            (dec.length < pfx.length + 4 ∨
             dec.take pfx.length ≠ pfx ∨
             b58Checksum shaF (dec.take (dec.length - 4)) ≠ dec.drop (dec.length - 4))))
    ∧ (∀ dec, b58decodeRaw s = some dec →
         ¬ dec.length < pfx.length + 4 →
         dec.take pfx.length = pfx →
         b58Checksum shaF (dec.take (dec.length - 4)) = dec.drop (dec.length - 4) →
         b58_decode_with_prefix_check shaF s pfx
           = .ok ((dec.drop pfx.length).take (dec.length - 4 - pfx.length))) := by
  constructor
  · constructor
    · rintro ⟨msg, hmsg⟩
      cases hdec : b58decodeRaw s with
      | none => exact Or.inl rfl
      | some dec =>
        refine Or.inr ⟨dec, rfl, ?_⟩
        by_contra hcon
        push_neg at hcon
        obtain ⟨h2, h3, h4⟩ := hcon
        rw [b58_decode_eq_ok shaF s pfx dec hdec (by omega) h3 h4] at hmsg
        exact Except.noConfusion hmsg
    · rintro (hnone | ⟨dec, hdec, hcase⟩)
      · exact ⟨_, b58_decode_eq_badB58 shaF s pfx hnone⟩
      · by_cases h2 : dec.length < pfx.length + 4
        · exact ⟨_, b58_decode_eq_short shaF s pfx dec hdec h2⟩
        · by_cases h3 : dec.take pfx.length = pfx
          · rcases hcase with hc | hc | hc
            · exact absurd hc h2
            · exact absurd h3 hc
            · exact ⟨_, b58_decode_eq_checksumMismatch shaF s pfx dec hdec h2 h3 hc⟩
          · exact ⟨_, b58_decode_eq_prefixMismatch shaF s pfx dec hdec h2 h3⟩
  · intro dec hdec h2 h3 h4
    exact b58_decode_eq_ok shaF s pfx dec hdec h2 h3 h4

theorem C4_b58_decode_cases_witness :
    b58_decode_with_prefix_check shaDummy
      ( b58_encode_with_prefix shaDummy [9] TZ2_ADDRESS_PREFIX)
      TZ2_ADDRESS_PREFIX = .ok [9] := by
  have h := (C4_b58_decode_cases shaDummy
      ( b58_encode_with_prefix shaDummy [9] TZ2_ADDRESS_PREFIX) TZ2_ADDRESS_PREFIX).2
      [6, 161, 161, 9, 7, 7, 7, 7] (by decide) (by decide) (by decide) (by decide)
  rw [h]
  rfl

/-! ### C9: cross-curve isolation -/

/-- Decoding an encoded string against a prefix that differs from the
encoding prefix at some common position fails. -/
theorem b58_decode_encode_crossPfx (shaF : List Nat → List Nat)
    (hs : ShaOk shaF) (payload pfxA pfxB : List Nat)
    (hp : ∀ b ∈ payload, b < 256) (hxA : ∀ b ∈ pfxA, b < 256)
    (hne : ∃ i : Fin (min pfxA.length pfxB.length),
      pfxA[(i : Nat)]? ≠ pfxB[(i : Nat)]?) :
    ∃ e, b58_decode_with_prefix_check shaF
      ( b58_encode_with_prefix shaF payload pfxA) pfxB = .error e := by
  obtain ⟨i, hnei⟩ := hne
  have hi1 : (i : Nat) < pfxA.length := lt_of_lt_of_le i.isLt (Nat.min_le_left _ _)
  have hi2 : (i : Nat) < pfxB.length := lt_of_lt_of_le i.isLt (Nat.min_le_right _ _)
  have hraw := b58decodeRaw_encode_with_prefix shaF hs payload pfxA hp hxA
  set ck := b58Checksum shaF (pfxA ++ payload) with hck
  by_cases hshort : (pfxA ++ payload ++ ck).length < pfxB.length + 4
  · exact ⟨_, b58_decode_eq_short shaF _ pfxB _ hraw hshort⟩
  · refine ⟨_, b58_decode_eq_prefixMismatch shaF _ pfxB _ hraw hshort ?_⟩
    intro heq
    have h1 : ((pfxA ++ payload ++ ck).take pfxB.length)[(i : Nat)]?
        = pfxB[(i : Nat)]? := by rw [heq]
    rw [List.getElem?_take_of_lt hi2] at h1
    have h2 : (pfxA ++ payload ++ ck)[(i : Nat)]? = pfxA[(i : Nat)]? := by
      rw [List.append_assoc]
      exact List.getElem?_append_left hi1
    rw [h2] at h1
    exact hnei h1

/-- C9: the three curves' public-key, signature, and address prefixes are
pairwise distinct, and a string encoded with one curve's prefix constant
is rejected when decoded with any different curve's prefix constant. -/
theorem C9_cross_curve_isolation (shaF : List Nat → List Nat)
    (hs : ShaOk shaF) (payload : List Nat) (hp : ∀ b ∈ payload, b < 256) :
    (∀ i j : Fin 3, i ≠ j →
      pkPrefixTable i ≠ pkPrefixTable j ∧
      sigPrefixTable i ≠ sigPrefixTable j ∧
      addrPrefixTable i ≠ addrPrefixTable j)
    ∧ (∀ i j : Fin 3, i ≠ j →
        (∃ e, b58_decode_with_prefix_check shaF
          ( b58_encode_with_prefix shaF payload (pkPrefixTable i))
          (pkPrefixTable j) = .error e)
        ∧ (∃ e, b58_decode_with_prefix_check shaF
            ( b58_encode_with_prefix shaF payload (sigPrefixTable i))
            (sigPrefixTable j) = .error e)
        ∧ (∃ e, b58_decode_with_prefix_check shaF
            ( b58_encode_with_prefix shaF payload (addrPrefixTable i))
            (addrPrefixTable j) = .error e)) := by
  refine ⟨by decide, ?_⟩
  intro i j hij
  fin_cases i <;> fin_cases j <;>
    first
      | exact absurd rfl hij
      | exact
          ⟨b58_decode_encode_crossPfx shaF hs payload _ _ hp (by decide) (by decide),
           b58_decode_encode_crossPfx shaF hs payload _ _ hp (by decide) (by decide),
           b58_decode_encode_crossPfx shaF hs payload _ _ hp (by decide) (by decide)⟩

theorem C9_cross_curve_isolation_witness :
    ∃ e, b58_decode_with_prefix_check shaDummy
      ( b58_encode_with_prefix shaDummy [5] (pkPrefixTable 0))
      (pkPrefixTable 1) = .error e :=
  ((C9_cross_curve_isolation shaDummy shaDummyOk [5] (by decide)).2 0 1 (by decide)).1

/-! ### Session token lemmas -/

theorem findIdx?_append_all_false {α : Type} {p : α → Bool} {l1 l2 : List α}
    (h : ∀ x ∈ l1, p x = false) :
    ∀ i, List.findIdx? p (l1 ++ l2) i = List.findIdx? p l2 (i + l1.length) := by
  induction l1 with
  | nil => intro i; simp
  | cons x t ih =>
    intro i
    rw [List.cons_append, List.findIdx?_cons,
      if_neg (by rw [h x (List.mem_cons_self x t)]; exact Bool.false_ne_true)]
    rw [ih (fun y hy => h y (List.mem_cons_of_mem x hy)) (i + 1)]
    congr 1
    simp
    omega

theorem findIdx?_cons_true {α : Type} {p : α → Bool} {x : α} {xs : List α}
    (h : p x = true) (i : Nat) : List.findIdx? p (x :: xs) i = some i := by
  rw [List.findIdx?_cons, if_pos h]

theorem rfindDot_eq_none (v : List Char) (h : '.' ∉ v) : rfindDot v = none := by
  have hf : v.reverse.findIdx? (fun c => c = '.') = none := by
    rw [List.findIdx?_eq_none_iff]
    intro x hx
    have hxv : x ∈ v := List.mem_reverse.mp hx
    simp only [decide_eq_false_iff_not]
    intro hxe
    exact h (hxe ▸ hxv)
  simp only [rfindDot, hf]

theorem rfindDot_signed (d sig : List Char) (h : '.' ∉ sig) :
    rfindDot (d ++ '.' :: sig) = some d.length := by
  have hall : ∀ x ∈ sig.reverse, (fun c => decide (c = '.')) x = false := by
    intro x hx
    have hxv : x ∈ sig := List.mem_reverse.mp hx
    simp only [decide_eq_false_iff_not]
    intro hxe
    exact h (hxe ▸ hxv)
  have hrev : (d ++ '.' :: sig).reverse = sig.reverse ++ '.' :: d.reverse := by
    simp [List.reverse_append]
  have hfind : (d ++ '.' :: sig).reverse.findIdx? (fun c => c = '.')
      = some sig.length := by
    rw [hrev, findIdx?_append_all_false hall 0,
      findIdx?_cons_true (by simp) (0 + sig.reverse.length)]
    rw [List.length_reverse]
    norm_num
  simp only [rfindDot, hfind, List.length_append, List.length_cons]
  congr 1
  omega

/-- The no-dot branch of `verify_session_cookie` is the unsigned legacy
decoding chain, independent of the key. -/
theorem verify_session_cookie_noDot (P : CryptoPrims) (v : List Char)
    (k : List Nat) (h : '.' ∉ v) :
    verify_session_cookie P v k = legacyDecode P v := by
  have hn := rfindDot_eq_none v h
  simp only [verify_session_cookie, hn, legacyDecode]
  cases P.b64decBytes v with
  | none => rfl
  | some bs =>
    dsimp only
    cases P.utf8Dec bs with
    | none => rfl
    | some s =>
      dsimp only
      cases P.jsonToSession s with
      | none => rfl
      | some sess => rfl

/-- Evaluation of `verify_session_cookie` on a correctly-shaped signed token
whose signature half is dot-free. -/
theorem verify_session_cookie_signed (P : CryptoPrims) (ed es : List Char)
    (k : List Nat) (hdot : '.' ∉ es) :
    verify_session_cookie P (ed ++ '.' :: es) k
      = (match P.b64decBytes es with
         | none => none
         | some expectedSigBytes =>
           if P.hmacSha256 k (P.utf8Enc ed) = expectedSigBytes then
             match P.b64decBytes ed with
             | none => none
             | some sessionBytes =>
               match P.utf8Dec sessionBytes with
               | none => none
               | some sessionStr => P.jsonToSession sessionStr
           else none) := by
  have hfind := rfindDot_signed ed es hdot
  have htake : (ed ++ '.' :: es).take ed.length = ed := List.take_left ed _
  have hdrop : (ed ++ '.' :: es).drop (ed.length + 1) = es := by
    rw [List.drop_append 1]
    rfl
  simp only [verify_session_cookie, hfind, htake, hdrop]

/-! ### C10: the legacy (dot-free) path has no key-dependent check -/

/-- C10: for dot-free cookie values the verifier performs no key-dependent
check: the result is identical for any two keys, it is `some session`
exactly when the value base64-decodes to UTF-8 text that JSON-parses as a
`TezosAdminSession`, and such an unsigned token naming an allowlisted
address yields the address-bound admin capability. -/
theorem C10_legacy_key_independent (P : CryptoPrims) (v : List Char)
    (h : '.' ∉ v) (k1 k2 : List Nat) (cfg : AuthConfig) (jar : CookieJar)
    (a : List Char) :
    verify_session_cookie P v k1 = verify_session_cookie P v k2
    ∧ (∀ s, verify_session_cookie P v k1 = some s ↔ legacyDecode P v = some s)
    ∧ (cfg.enable_tezos_auth = true →
       jarGet jar sessionCookieName = some v →
       legacyDecode P v = some { address := a } →
       cfg.admin_tezos_addresses.contains a = true →
       extract_admin_auth P cfg jar
         = { is_dev_admin := false, tezos_admin_address := some a }) := by
  refine ⟨?_, ?_, ?_⟩
  · rw [verify_session_cookie_noDot P v k1 h, verify_session_cookie_noDot P v k2 h]
  · intro s
    rw [verify_session_cookie_noDot P v k1 h]
  · intro hen hjar hleg hcont
    have hv := verify_session_cookie_noDot P v cfg.cookie_hmac_key h
    simp only [extract_admin_auth, hen, hjar, hv, hleg, hcont]
    simp

theorem C10_legacy_key_independent_witness :
    extract_admin_auth P0 cfgLegacy jarLegacy
      = { is_dev_admin := false, tezos_admin_address := some (['a']) } :=
  (C10_legacy_key_independent P0 legacyTokenExample (by decide) keyExample
    key2Example cfgLegacy jarLegacy (['a'])).2.2 (by decide) (by decide)
    (by decide) (by decide)

/-! ### C5: session token sign/verify -/

/-- C5 counterexample to the claim as stated: a dot-free unsigned token
differs from every correctly signed token, yet the verifier accepts it
with the original key (through the legacy branch), so "verifying any
tampered token with the original key yields None" is false on the code. -/
theorem C5_counterexample :
    verify_session_cookie P0 legacyTokenExample keyExample = some sessionExample
    ∧ legacyTokenExample
        ≠ sign_session_cookie P0 (P0.jsonOfSession sessionExample) keyExample := by
  exact ⟨by decide, by decide⟩

/-- C5 (amended): the signed token has the documented
`base64(json) ++ "." ++ base64(hmac(key, base64(json)))` shape; verifying
it with the signing key returns the session; verifying it with a key whose
MAC differs returns `none`; and every token in the signed (dotted) form
whose signature half does not decode to the HMAC of its data half is
rejected.  Dot-free tokens take the documented legacy path instead (C10),
which is what refutes the unrestricted "any tampered token" reading. -/
theorem C5_session_token_amended (P : CryptoPrims) (s : TezosAdminSession)
    (key key2 : List Nat)
    (hdot : '.' ∉ P.b64encBytes (signedMac P s key))
    (hb64sig : P.b64decBytes (P.b64encBytes (signedMac P s key))
      = some (signedMac P s key))
    (hb64data : P.b64decBytes (signedData P s) = some (P.utf8Enc (P.jsonOfSession s)))
    (hutf8 : P.utf8Dec (P.utf8Enc (P.jsonOfSession s)) = some (P.jsonOfSession s))
    (hjson : P.jsonToSession (P.jsonOfSession s) = some s)
    (hmacne : signedMac P s key2 ≠ signedMac P s key) :
    sign_session_cookie P (P.jsonOfSession s) key
      = signedData P s ++ '.' :: P.b64encBytes (signedMac P s key)
    ∧ verify_session_cookie P (sign_session_cookie P (P.jsonOfSession s) key) key
      = some s
    ∧ verify_session_cookie P (sign_session_cookie P (P.jsonOfSession s) key) key2
      = none
    ∧ (∀ t i, rfindDot t = some i →
        (∀ bs, P.b64decBytes (t.drop (i + 1)) = some bs →
          P.hmacSha256 key (P.utf8Enc (t.take i)) ≠ bs) →
        verify_session_cookie P t key = none) := by
  have hsign : sign_session_cookie P (P.jsonOfSession s) key
      = signedData P s ++ '.' :: P.b64encBytes (signedMac P s key) := rfl
  refine ⟨hsign, ?_, ?_, ?_⟩
  · rw [hsign, verify_session_cookie_signed P _ _ key hdot]
    simp only [hb64sig]
    rw [if_pos (by rfl)]
    simp only [hb64data, hutf8, hjson]
  · rw [hsign, verify_session_cookie_signed P _ _ key2 hdot]
    simp only [hb64sig]
    rw [if_neg (show ¬ (P.hmacSha256 key2 (P.utf8Enc (signedData P s))
      = signedMac P s key) from hmacne)]
  · intro t i hfind hbs
    simp only [verify_session_cookie, hfind]
    cases hb : P.b64decBytes (t.drop (i + 1)) with
    | none => rfl
    | some bs =>
      dsimp only
      rw [if_neg (hbs bs hb)]

set_option maxRecDepth 4000 in
theorem C5_session_token_amended_witness :
    verify_session_cookie P0
      (sign_session_cookie P0 (P0.jsonOfSession sessionExample) keyExample)
      keyExample = some sessionExample
    ∧ verify_session_cookie P0
        (sign_session_cookie P0 (P0.jsonOfSession sessionExample) keyExample)
        key2Example = none :=
  ⟨(C5_session_token_amended P0 sessionExample keyExample key2Example
      (by decide) (by decide) (by decide) (by decide) (by decide) (by decide)).2.1,
   (C5_session_token_amended P0 sessionExample keyExample key2Example
      (by decide) (by decide) (by decide) (by decide) (by decide) (by decide)).2.2.1⟩

/-! ### C2: capability extraction -/

/-- The extracted capability is always one of the three shapes the code can
build: public, address-bound admin, or dev bypass. -/
theorem extract_admin_auth_shape (P : CryptoPrims) (cfg : AuthConfig)
    (jar : CookieJar) :
    extract_admin_auth P cfg jar = AdminAuth.public
    ∨ (∃ a, extract_admin_auth P cfg jar
        = { is_dev_admin := false, tezos_admin_address := some a })
    ∨ extract_admin_auth P cfg jar
        = { is_dev_admin := true, tezos_admin_address := none } := by
  unfold extract_admin_auth
  split
  · exact Or.inl rfl
  · split
    · split
      · split
        · exact Or.inr (Or.inl ⟨_, rfl⟩)
        · split
          · exact Or.inr (Or.inr rfl)
          · exact Or.inl rfl
      · split
        · exact Or.inr (Or.inr rfl)
        · exact Or.inl rfl
    · split
      · exact Or.inr (Or.inr rfl)
      · exact Or.inl rfl

/-- C2: with the auth feature disabled the public capability is returned
unconditionally; with it enabled, the address-bound admin capability is
returned exactly when the session cookie is present, verifies under the
configured HMAC key, and its address is in the allowlist (checked on this
very call); otherwise the dev-bypass capability when `dev_mode` is set and
the public capability otherwise; and the returned value never has both
admin-granting conditions true at once. -/
theorem C2_extract_admin_auth_spec (P : CryptoPrims) (cfg : AuthConfig)
    (jar : CookieJar) :
    (cfg.enable_tezos_auth = false →
      extract_admin_auth P cfg jar = AdminAuth.public)
    ∧ (cfg.enable_tezos_auth = true → ∀ a,
        (extract_admin_auth P cfg jar
            = { is_dev_admin := false, tezos_admin_address := some a }
          ↔ ∃ v, jarGet jar sessionCookieName = some v
              ∧ verify_session_cookie P v cfg.cookie_hmac_key = some { address := a }
              ∧ cfg.admin_tezos_addresses.contains a = true))
    ∧ (cfg.enable_tezos_auth = true →
        (¬ ∃ v a, jarGet jar sessionCookieName = some v
            ∧ verify_session_cookie P v cfg.cookie_hmac_key = some { address := a }
            ∧ cfg.admin_tezos_addresses.contains a = true) →
        extract_admin_auth P cfg jar
          = if cfg.dev_mode then
              { is_dev_admin := true, tezos_admin_address := none }
            else AdminAuth.public)
    ∧ ¬ ((extract_admin_auth P cfg jar).is_dev_admin = true
        ∧ ((extract_admin_auth P cfg jar).tezos_admin_address).isSome = true) := by
  refine ⟨?_, ?_, ?_, ?_⟩
  · intro h
    simp [extract_admin_auth, h]
  · intro hen a
    constructor
    · intro hx
      cases hjar : jarGet jar sessionCookieName with
      | none =>
        exfalso
        have hval : extract_admin_auth P cfg jar
            = if cfg.dev_mode then
                { is_dev_admin := true, tezos_admin_address := none }
              else AdminAuth.public := by
          simp [extract_admin_auth, hen, hjar]
        rw [hval] at hx
        by_cases hd : cfg.dev_mode <;> simp [hd, AdminAuth.public] at hx
      | some v =>
        cases hver : verify_session_cookie P v cfg.cookie_hmac_key with
        | none =>
          exfalso
          have hval : extract_admin_auth P cfg jar
              = if cfg.dev_mode then
                  { is_dev_admin := true, tezos_admin_address := none }
                else AdminAuth.public := by
            simp [extract_admin_auth, hen, hjar, hver]
          rw [hval] at hx
          by_cases hd : cfg.dev_mode <;> simp [hd, AdminAuth.public] at hx
        | some sess =>
          obtain ⟨addr⟩ := sess
          cases hcont : cfg.admin_tezos_addresses.contains addr with
          | false =>
            exfalso
            have hmem : addr ∉ cfg.admin_tezos_addresses := by
              simpa using hcont
            have hval : extract_admin_auth P cfg jar
                = if cfg.dev_mode then
                    { is_dev_admin := true, tezos_admin_address := none }
                  else AdminAuth.public := by
              simp [extract_admin_auth, hen, hjar, hver, hmem]
            rw [hval] at hx
            by_cases hd : cfg.dev_mode <;> simp [hd, AdminAuth.public] at hx
          | true =>
            have hmem : addr ∈ cfg.admin_tezos_addresses := by
              simpa using hcont
            have hval : extract_admin_auth P cfg jar
                = { is_dev_admin := false, tezos_admin_address := some addr } := by
              simp [extract_admin_auth, hen, hjar, hver, hmem]
            rw [hval] at hx
            have ha : addr = a := by
              simpa [AdminAuth.mk.injEq] using hx
            subst ha
            exact ⟨v, rfl, hver, hcont⟩
    · rintro ⟨v, hjar, hver, hcont⟩
      have hmem : a ∈ cfg.admin_tezos_addresses := by
        simpa using hcont
      simp [extract_admin_auth, hen, hjar, hver, hmem]
  · intro hen hno
    cases hjar : jarGet jar sessionCookieName with
    | none => simp [extract_admin_auth, hen, hjar]
    | some v =>
      cases hver : verify_session_cookie P v cfg.cookie_hmac_key with
      | none => simp [extract_admin_auth, hen, hjar, hver]
      | some sess =>
        obtain ⟨addr⟩ := sess
        cases hcont : cfg.admin_tezos_addresses.contains addr with
        | true => exact absurd ⟨v, addr, hjar, hver, hcont⟩ hno
        | false =>
          have hmem : addr ∉ cfg.admin_tezos_addresses := by
            simpa using hcont
          simp [extract_admin_auth, hen, hjar, hver, hmem]
  · rcases extract_admin_auth_shape P cfg jar with h | ⟨a, h⟩ | h <;>
      rw [h] <;> simp [AdminAuth.public]

theorem C2_extract_admin_auth_spec_witness :
    extract_admin_auth P0 cfgDisabled [] = AdminAuth.public :=
  (C2_extract_admin_auth_spec P0 cfgDisabled []).1 rfl

/-! ### C6: public key parsing -/

/-- C6 counterexample to the claim as stated: in the `edpk` branch the
curve library is never consulted at parse time, so `from_base58check`
returns the tagged `Ed25519` variant even when the library
(`Ed25519VerifyingKey::from_bytes`, here instantiated to reject
everything) rejects the decoded bytes — the library check is deferred to
`verify_signature`, where its failure surfaces as `Internal`, not
`ValidationError`. -/
theorem C6_counterexample :
    TezosCryptoPublicKey.from_base58check P1 edpkExample
      = .ok (.Ed25519 (List.replicate 32 0))
    ∧ P1.edVKOk (List.replicate 32 0) = false := by
  exact ⟨by decide, by decide⟩

/-- C6 (amended): decode failures propagate; a decoded payload of the
wrong length fails with a `ValidationError`; for `sppk`/`p2pk` the curve
library's rejection of the point fails with a `ValidationError` and the
tagged variant is returned only for accepted points; for `edpk` any
32-byte payload yields the tagged variant with no library check at parse
time; and any other prefix fails with
`ValidationError("Unsupported public key prefix")`. -/
theorem C6_from_base58check_amended (P : CryptoPrims) (s : List Char) :
    (List.isPrefixOf ("edpk".toList) s = true →
      (∀ e, b58_decode_with_prefix_check P.sha256 s ED25519_PUBLIC_KEY_PREFIX
          = .error e →
        TezosCryptoPublicKey.from_base58check P s = .error e)
      ∧ (∀ raw, b58_decode_with_prefix_check P.sha256 s ED25519_PUBLIC_KEY_PREFIX
          = .ok raw →
          (raw.length ≠ ED25519_PK_RAW_LEN →
            TezosCryptoPublicKey.from_base58check P s
              = .error (AppError.ValidationError ("Invalid Ed25519 public key length")))
          ∧ (raw.length = ED25519_PK_RAW_LEN →
            TezosCryptoPublicKey.from_base58check P s = .ok (.Ed25519 raw))))
    ∧ (List.isPrefixOf ("edpk".toList) s = false →
       List.isPrefixOf ("sppk".toList) s = true →
      (∀ e, b58_decode_with_prefix_check P.sha256 s SECP256K1_PUBLIC_KEY_PREFIX
          = .error e →
        TezosCryptoPublicKey.from_base58check P s = .error e)
      ∧ (∀ raw, b58_decode_with_prefix_check P.sha256 s SECP256K1_PUBLIC_KEY_PREFIX
          = .ok raw →
          (raw.length ≠ SECP256K1_PK_COMPRESSED_RAW_LEN →
            TezosCryptoPublicKey.from_base58check P s
              = .error (AppError.ValidationError ("Invalid Secp256k1 public key length")))
          ∧ (raw.length = SECP256K1_PK_COMPRESSED_RAW_LEN →
              P.secpPointOk raw = true →
            TezosCryptoPublicKey.from_base58check P s = .ok (.Secp256k1 raw))
          ∧ (raw.length = SECP256K1_PK_COMPRESSED_RAW_LEN →
              P.secpPointOk raw = false →
            TezosCryptoPublicKey.from_base58check P s
              = .error (AppError.ValidationError ("Secp256k1 PK decode error")))))
    ∧ (List.isPrefixOf ("edpk".toList) s = false →
       List.isPrefixOf ("sppk".toList) s = false →
       List.isPrefixOf ("p2pk".toList) s = true →
      (∀ e, b58_decode_with_prefix_check P.sha256 s P256_PUBLIC_KEY_PREFIX
          = .error e →
        TezosCryptoPublicKey.from_base58check P s = .error e)
      ∧ (∀ raw, b58_decode_with_prefix_check P.sha256 s P256_PUBLIC_KEY_PREFIX
          = .ok raw →
          (raw.length ≠ P256_PK_COMPRESSED_RAW_LEN →
            TezosCryptoPublicKey.from_base58check P s
              = .error (AppError.ValidationError ("Invalid P256 public key length")))
          ∧ (raw.length = P256_PK_COMPRESSED_RAW_LEN → P.p256PointOk raw = true →
            TezosCryptoPublicKey.from_base58check P s = .ok (.P256 raw))
          ∧ (raw.length = P256_PK_COMPRESSED_RAW_LEN → P.p256PointOk raw = false →
            TezosCryptoPublicKey.from_base58check P s
              = .error (AppError.ValidationError ("P256 PK decode error")))))
    ∧ (List.isPrefixOf ("edpk".toList) s = false →
       List.isPrefixOf ("sppk".toList) s = false →
       List.isPrefixOf ("p2pk".toList) s = false →
      TezosCryptoPublicKey.from_base58check P s
        = .error (AppError.ValidationError ("Unsupported public key prefix"))) := by
  refine ⟨?_, ?_, ?_, ?_⟩
  · intro hpre
    have hp : ['e', 'd', 'p', 'k'] <+: s := List.isPrefixOf_iff_prefix.mp hpre
    constructor
    · intro e he
      simp [TezosCryptoPublicKey.from_base58check, hp, he]
    · intro raw hraw
      constructor
      · intro hlen
        simp [TezosCryptoPublicKey.from_base58check, hp, hraw, hlen]
      · intro hlen
        simp [TezosCryptoPublicKey.from_base58check, hp, hraw, hlen]
  · intro hed hpre
    have hne : ¬ (['e', 'd', 'p', 'k'] <+: s) := fun hc => by
      have h2 : List.isPrefixOf ("edpk".toList) s = true :=
        List.isPrefixOf_iff_prefix.mpr hc
      rw [hed] at h2
      exact Bool.noConfusion h2
    have hp : ['s', 'p', 'p', 'k'] <+: s := List.isPrefixOf_iff_prefix.mp hpre
    constructor
    · intro e he
      simp [TezosCryptoPublicKey.from_base58check, hne, hp, he]
    · intro raw hraw
      refine ⟨?_, ?_, ?_⟩
      · intro hlen
        simp [TezosCryptoPublicKey.from_base58check, hne, hp, hraw, hlen]
      · intro hlen hok
        simp [TezosCryptoPublicKey.from_base58check, hne, hp, hraw, hlen, hok]
      · intro hlen hok
        simp [TezosCryptoPublicKey.from_base58check, hne, hp, hraw, hlen, hok]
  · intro hed hsp hpre
    have hne : ¬ (['e', 'd', 'p', 'k'] <+: s) := fun hc => by
      have h2 : List.isPrefixOf ("edpk".toList) s = true :=
        List.isPrefixOf_iff_prefix.mpr hc
      rw [hed] at h2
      exact Bool.noConfusion h2
    have hns : ¬ (['s', 'p', 'p', 'k'] <+: s) := fun hc => by
      have h2 : List.isPrefixOf ("sppk".toList) s = true :=
        List.isPrefixOf_iff_prefix.mpr hc
      rw [hsp] at h2
      exact Bool.noConfusion h2
    have hp : ['p', '2', 'p', 'k'] <+: s := List.isPrefixOf_iff_prefix.mp hpre
    constructor
    · intro e he
      simp [TezosCryptoPublicKey.from_base58check, hne, hns, hp, he]
    · intro raw hraw
      refine ⟨?_, ?_, ?_⟩
      · intro hlen
        simp [TezosCryptoPublicKey.from_base58check, hne, hns, hp, hraw, hlen]
      · intro hlen hok
        simp [TezosCryptoPublicKey.from_base58check, hne, hns, hp, hraw, hlen, hok]
      · intro hlen hok
        simp [TezosCryptoPublicKey.from_base58check, hne, hns, hp, hraw, hlen, hok]
  · intro hed hsp hp2
    have hne : ¬ (['e', 'd', 'p', 'k'] <+: s) := fun hc => by
      have h2 : List.isPrefixOf ("edpk".toList) s = true :=
        List.isPrefixOf_iff_prefix.mpr hc
      rw [hed] at h2
      exact Bool.noConfusion h2
    have hns : ¬ (['s', 'p', 'p', 'k'] <+: s) := fun hc => by
      have h2 : List.isPrefixOf ("sppk".toList) s = true :=
        List.isPrefixOf_iff_prefix.mpr hc
      rw [hsp] at h2
      exact Bool.noConfusion h2
    have hnp : ¬ (['p', '2', 'p', 'k'] <+: s) := fun hc => by
      have h2 : List.isPrefixOf ("p2pk".toList) s = true :=
        List.isPrefixOf_iff_prefix.mpr hc
      rw [hp2] at h2
      exact Bool.noConfusion h2
    simp [TezosCryptoPublicKey.from_base58check, hne, hns, hnp]

theorem C6_from_base58check_amended_witness :
    TezosCryptoPublicKey.from_base58check P0 edpkExample
      = .ok (.Ed25519 (List.replicate 32 0)) :=
  (((C6_from_base58check_amended P0 edpkExample).1 (by decide)).2
    (List.replicate 32 0) (by decide)).2 (by decide)

/-! ### C7: Micheline string packing -/

/-- C7: `pack_micheline_string` always succeeds, and for strings whose
UTF-8 byte length is below `2 ^ 32` it returns exactly
`[0x05, 0x01] ‖ big_endian_u32(byte length) ‖ utf8 bytes`. -/
theorem C7_pack_micheline_string_spec (P : CryptoPrims) :
    (∀ s, ∃ bs, pack_micheline_string P s = .ok bs)
    ∧ (∀ s, (P.utf8Enc s).length < 2 ^ 32 →
        pack_micheline_string P s
          = .ok (MICHELINE_PACKED_PREFIX :: MICHELINE_STRING_TAG ::
              (u32be (P.utf8Enc s).length ++ P.utf8Enc s))) := by
  constructor
  · intro s
    exact ⟨_, rfl⟩
  · intro s h
    simp only [pack_micheline_string]
    rw [Nat.mod_eq_of_lt h]

theorem C7_pack_micheline_string_spec_witness :
    pack_micheline_string P0 (['a', 'b'])
      = .ok (MICHELINE_PACKED_PREFIX :: MICHELINE_STRING_TAG ::
          (u32be (P0.utf8Enc (['a', 'b'])).length ++ P0.utf8Enc (['a', 'b']))) :=
  (C7_pack_micheline_string_spec P0).2 (['a', 'b']) (by decide)

/-! ### C1 and C8: the login verification chain -/

/-- The outcome of every stage of `tezos_login`, in the code's order:
key parse error → wrapped `ValidationError`; derived address mismatch →
`ValidationError`; signature verifying `false` → `Unauthorized`; a
`ValidationError` from signature decoding surfaces as-is; any other
verification failure → `Internal`; address not allowlisted →
`Unauthorized`; otherwise success with the signed session cookie added. -/
theorem tezos_login_chain (P : CryptoPrims) (cfg : AuthConfig) (jar : CookieJar)
    (payload : TezosLoginPayload) :
    (∀ e, TezosCryptoPublicKey.from_base58check P payload.public_key = .error e →
      tezos_login P cfg jar payload
        = .error (AppError.ValidationError
            ("Invalid public key format or value: " ++ e.message)))
    ∧ (∀ k d pb,
        TezosCryptoPublicKey.from_base58check P payload.public_key = .ok k →
        TezosCryptoPublicKey.public_key_hash_b58check P k = .ok d →
        pack_micheline_string P payload.challenge = .ok pb →
        ((d ≠ payload.pkh →
          tezos_login P cfg jar payload
            = .error (AppError.ValidationError
                ("Public key hash does not match the provided public key.")))
        ∧ (d = payload.pkh →
          (TezosCryptoPublicKey.verify_signature P k payload.signature
              (P.blake2b32 pb) = .ok false →
            tezos_login P cfg jar payload = .error AppError.Unauthorized)
          ∧ (∀ msg, TezosCryptoPublicKey.verify_signature P k payload.signature
              (P.blake2b32 pb) = .error (AppError.ValidationError msg) →
            tezos_login P cfg jar payload
              = .error (AppError.ValidationError msg))
          ∧ (∀ e, TezosCryptoPublicKey.verify_signature P k payload.signature
              (P.blake2b32 pb) = .error e → e.isValidationError = false →
            tezos_login P cfg jar payload
              = .error (AppError.Internal ("Signature verification processing error")))
          ∧ (TezosCryptoPublicKey.verify_signature P k payload.signature
              (P.blake2b32 pb) = .ok true →
            (cfg.admin_tezos_addresses.contains payload.pkh = false →
              tezos_login P cfg jar payload = .error AppError.Unauthorized)
            ∧ (cfg.admin_tezos_addresses.contains payload.pkh = true →
              tezos_login P cfg jar payload
                = .ok (jarAdd jar sessionCookieName
                    (sign_session_cookie P
                      (P.jsonOfSession { address := payload.pkh })
                      cfg.cookie_hmac_key), "Login successful")))))) := by
  refine ⟨?_, ?_⟩
  · intro e he
    simp only [tezos_login, he]
  · intro k d pb hk hd hpb
    refine ⟨?_, ?_⟩
    · intro hne
      simp only [tezos_login, hk, hd]
      rw [if_pos hne]
    · intro heq
      subst heq
      refine ⟨?_, ?_, ?_, ?_⟩
      · intro hv
        simp only [tezos_login, hk, hd]
        rw [if_neg (fun hc => hc rfl)]
        simp only [hpb, hv]
      · intro msg hv
        simp only [tezos_login, hk, hd]
        rw [if_neg (fun hc => hc rfl)]
        simp [hpb, hv, AppError.isValidationError]
      · intro e hv hval
        simp only [tezos_login, hk, hd]
        rw [if_neg (fun hc => hc rfl)]
        simp [hpb, hv, hval]
      · intro hv
        refine ⟨?_, ?_⟩
        · intro hcont
          simp only [tezos_login, hk, hd]
          rw [if_neg (fun hc => hc rfl)]
          simp only [hpb, hv]
          rw [if_pos (by rw [hcont]; exact Bool.false_ne_true)]
        · intro hcont
          simp only [tezos_login, hk, hd]
          rw [if_neg (fun hc => hc rfl)]
          simp only [hpb, hv]
          rw [if_neg (fun hc => hc hcont)]

/-- `tezos_login` returns `.ok` exactly on the fully successful chain, and
then the returned jar is the input jar with the signed session cookie
added. -/
theorem tezos_login_success (P : CryptoPrims) (cfg : AuthConfig)
    (jar : CookieJar) (payload : TezosLoginPayload)
    (out : CookieJar × String) :
    tezos_login P cfg jar payload = .ok out ↔
      ((∃ k, TezosCryptoPublicKey.from_base58check P payload.public_key = .ok k
          ∧ TezosCryptoPublicKey.public_key_hash_b58check P k = .ok payload.pkh
          ∧ ∃ pb, pack_micheline_string P payload.challenge = .ok pb
            ∧ TezosCryptoPublicKey.verify_signature P k payload.signature
                (P.blake2b32 pb) = .ok true)
        ∧ cfg.admin_tezos_addresses.contains payload.pkh = true
        ∧ out = (jarAdd jar sessionCookieName
            (sign_session_cookie P (P.jsonOfSession { address := payload.pkh })
              cfg.cookie_hmac_key), "Login successful")) := by
  have chain := tezos_login_chain P cfg jar payload
  constructor
  · intro h
    cases hk : TezosCryptoPublicKey.from_base58check P payload.public_key with
    | error e =>
      rw [chain.1 e hk] at h
      exact Except.noConfusion h
    | ok k =>
      obtain ⟨d, hd⟩ : ∃ d, TezosCryptoPublicKey.public_key_hash_b58check P k
          = .ok d := ⟨_, rfl⟩
      obtain ⟨pb, hpb⟩ : ∃ pb, pack_micheline_string P payload.challenge
          = .ok pb := ⟨_, rfl⟩
      have hbranch := chain.2 k d pb hk hd hpb
      by_cases hdeq : d = payload.pkh
      · subst hdeq
        have hb2 := hbranch.2 rfl
        cases hv : TezosCryptoPublicKey.verify_signature P k payload.signature
            (P.blake2b32 pb) with
        | ok b =>
          cases b with
          | false =>
            rw [hb2.1 hv] at h
            exact Except.noConfusion h
          | true =>
            cases hcont : cfg.admin_tezos_addresses.contains payload.pkh with
            | false =>
              rw [(hb2.2.2.2 hv).1 hcont] at h
              exact Except.noConfusion h
            | true =>
              rw [(hb2.2.2.2 hv).2 hcont] at h
              refine ⟨⟨k, rfl, hd, pb, hpb, hv⟩, rfl, ?_⟩
              exact (Except.ok.inj h).symm
        | error e =>
          cases e with
          | ValidationError msg =>
            rw [hb2.2.1 msg hv] at h
            exact Except.noConfusion h
          | Unauthorized =>
            rw [hb2.2.2.1 _ hv rfl] at h
            exact Except.noConfusion h
          | Internal m =>
            rw [hb2.2.2.1 _ hv rfl] at h
            exact Except.noConfusion h
      · rw [hbranch.1 hdeq] at h
        exact Except.noConfusion h
  · rintro ⟨⟨k, hk, hd, pb, hpb, hv⟩, hcont, hout⟩
    have hbranch := chain.2 k payload.pkh pb hk hd hpb
    rw [hout]
    exact ((hbranch.2 rfl).2.2.2 hv).2 hcont

/-- C1: the order and outcomes of the checks of `tezos_login`. -/
theorem C1_tezos_login_order (P : CryptoPrims) (cfg : AuthConfig)
    (jar : CookieJar) (payload : TezosLoginPayload) :
    (∀ e, TezosCryptoPublicKey.from_base58check P payload.public_key = .error e →
      tezos_login P cfg jar payload
        = .error (AppError.ValidationError
            ("Invalid public key format or value: " ++ e.message)))
    ∧ (∀ k d pb,
        TezosCryptoPublicKey.from_base58check P payload.public_key = .ok k →
        TezosCryptoPublicKey.public_key_hash_b58check P k = .ok d →
        pack_micheline_string P payload.challenge = .ok pb →
        ((d ≠ payload.pkh →
          tezos_login P cfg jar payload
            = .error (AppError.ValidationError
                ("Public key hash does not match the provided public key.")))
        ∧ (d = payload.pkh →
          (TezosCryptoPublicKey.verify_signature P k payload.signature
              (P.blake2b32 pb) = .ok false →
            tezos_login P cfg jar payload = .error AppError.Unauthorized)
          ∧ (∀ msg, TezosCryptoPublicKey.verify_signature P k payload.signature
              (P.blake2b32 pb) = .error (AppError.ValidationError msg) →
            tezos_login P cfg jar payload
              = .error (AppError.ValidationError msg))
          ∧ (∀ e, TezosCryptoPublicKey.verify_signature P k payload.signature
              (P.blake2b32 pb) = .error e → e.isValidationError = false →
            tezos_login P cfg jar payload
              = .error (AppError.Internal ("Signature verification processing error")))
          ∧ (TezosCryptoPublicKey.verify_signature P k payload.signature
              (P.blake2b32 pb) = .ok true →
            (cfg.admin_tezos_addresses.contains payload.pkh = false →
              tezos_login P cfg jar payload = .error AppError.Unauthorized)
            ∧ (cfg.admin_tezos_addresses.contains payload.pkh = true →
              tezos_login P cfg jar payload
                = .ok (jarAdd jar sessionCookieName
                    (sign_session_cookie P
                      (P.jsonOfSession { address := payload.pkh })
                      cfg.cookie_hmac_key), "Login successful")))))) :=
  tezos_login_chain P cfg jar payload

set_option maxRecDepth 8000 in
theorem C1_tezos_login_order_witness :
    tezos_login P2 cfgExample [] payloadExample = .error AppError.Unauthorized :=
  ((((C1_tezos_login_order P2 cfgExample [] payloadExample).2
    (.Ed25519 (List.replicate 32 0)) tz1Example ([5, 1, 0, 0, 0, 1, 120])
    (by decide) (by decide) (by decide)).2 rfl).1 (by decide))

/-- C8: a session cookie is set only on the fully successful path; on any
failure the operation returns the error and no cookie jar is produced. -/
theorem C8_no_partial_session (P : CryptoPrims) (cfg : AuthConfig)
    (jar : CookieJar) (payload : TezosLoginPayload) :
    ((∃ out, tezos_login P cfg jar payload = .ok out) ↔
      ((∃ k, TezosCryptoPublicKey.from_base58check P payload.public_key = .ok k
          ∧ TezosCryptoPublicKey.public_key_hash_b58check P k = .ok payload.pkh
          ∧ ∃ pb, pack_micheline_string P payload.challenge = .ok pb
            ∧ TezosCryptoPublicKey.verify_signature P k payload.signature
                (P.blake2b32 pb) = .ok true)
        ∧ cfg.admin_tezos_addresses.contains payload.pkh = true))
    ∧ (∀ out, tezos_login P cfg jar payload = .ok out →
        out = (jarAdd jar sessionCookieName
          (sign_session_cookie P (P.jsonOfSession { address := payload.pkh })
            cfg.cookie_hmac_key), "Login successful"))
    ∧ (∀ e, tezos_login P cfg jar payload = .error e →
        ∀ out, tezos_login P cfg jar payload ≠ .ok out) := by
  refine ⟨⟨?_, ?_⟩, ?_, ?_⟩
  · rintro ⟨out, hout⟩
    have h := (tezos_login_success P cfg jar payload out).mp hout
    exact ⟨h.1, h.2.1⟩
  · rintro ⟨hk, hcont⟩
    exact ⟨_, (tezos_login_success P cfg jar payload _).mpr ⟨hk, hcont, rfl⟩⟩
  · intro out hout
    exact ((tezos_login_success P cfg jar payload out).mp hout).2.2
  · intro e he out hok
    rw [he] at hok
    exact Except.noConfusion hok

set_option maxRecDepth 8000 in
theorem C8_no_partial_session_witness :
    ∃ out, tezos_login P0 cfgExample [] payloadExample = .ok out :=
  (C8_no_partial_session P0 cfgExample [] payloadExample).1.mpr
    ⟨⟨.Ed25519 (List.replicate 32 0), by decide, by decide,
      ([5, 1, 0, 0, 0, 1, 120]), by decide, by decide⟩, by decide⟩

end Pantera
